import Mathlib

/-!
Shallow embedding of the crimson-policy-generator sources (`app.py`,
`itglue_integration.py`).  Python strings are modelled as `List Char`;
each Python string operation used by the code gets a small executable
Lean counterpart, and the functions under verification are transcribed
over those.
-/

namespace PolicyGen

/-- Literal helper: the character list of a string literal. -/
def str (s : String) : List Char := s.data

/-- Python whitespace recognised by `str.strip()` on the ASCII range. -/
def isPySpace (c : Char) : Bool :=
  c == ' ' || c == '\t' || c == '\n' || c == '\r' || c == '\x0b' || c == '\x0c'

/-- Left part of Python `strip()`. -/
def dropLead (l : List Char) : List Char := l.dropWhile isPySpace

/-- Python `rstrip` with an arbitrary character class: drop trailing
characters satisfying `p`. -/
def dropTrailIf (p : Char → Bool) : List Char → List Char
  | [] => []
  | c :: rest =>
      let r := dropTrailIf p rest
      if r.isEmpty then (if p c then [] else [c]) else c :: r

/-- Python `str.strip()` (no arguments). -/
def pyStrip (l : List Char) : List Char := dropTrailIf isPySpace (dropLead l)

/-- Python substring test `pat in s`. -/
def listHas (pat : List Char) : List Char → Bool
  | [] => pat.isEmpty
  | c :: rest => pat.isPrefixOf (c :: rest) || listHas pat rest

/-- Python single-character `str.replace(a, b)`. -/
def replaceChar (a b : Char) (l : List Char) : List Char :=
  l.map (fun c => if c = a then b else c)

/-- Python `str.replace(xx, '')` for a doubled character `xx` (used for
the bold marker `**` and the heading marker `##`): delete non-overlapping
adjacent pairs of `x`, scanning left to right. -/
def removeTwin (x : Char) : List Char → List Char
  | [] => []
  | [c] => [c]
  | c :: d :: rest =>
      if c == x && d == x then removeTwin x rest
      else c :: removeTwin x (d :: rest)

/-- Python `s.split('\n')`. -/
def splitOnNl : List Char → List (List Char)
  | [] => [[]]
  | c :: rest =>
      if c == '\n' then [] :: splitOnNl rest
      else
        match splitOnNl rest with
        | [] => [[c]]
        | l :: ls => (c :: l) :: ls

/-- Python `sep.join(parts)`. -/
def joinWith (sep : List Char) : List (List Char) → List Char
  | [] => []
  | [l] => l
  | l :: ls => l ++ sep ++ joinWith sep ls

/-- Python `str.lower()` on the ASCII range. -/
def lowerStr (l : List Char) : List Char := l.map Char.toLower

/-! ## Content sanitizer (`generate_policy_content`, app.py lines 97-147) -/

/-- The `prefixes_to_remove` list of app.py, in source order. -/
def aiIntros : List (List Char) :=
  [str "Certainly!", str "Certainly,", str "Certainly.", str "Sure!", str "Sure,",
   str "Of course!", str "Of course,",
   str "Here is", str "Here\x27s", str "Below is", str "I\x27ll", str "I can",
   str "Let me", str "I\x27d be happy to",
   str "Here you go", str "Absolutely!", str "Absolutely,", str "No problem!",
   str "No problem,",
   str "I have aligned", str "I have created", str "This policy", str "The following"]

/-- The lowercase "assistant chatter" phrases filtered out line by line. -/
def aiPhrases : List (List Char) :=
  [str "if you\x27d like", str "would you like", str "let me know if", str "feel free to",
   str "i can also", str "i\x27d be happy to", str "please let me know",
   str "if you need", str "would you prefer", str "shall i", str "do you want",
   str "comprehensive information security policy", str "tailored to the organization",
   str "i have aligned", str "aligned it with", str "below is a", str "here is a"]

/-- The pure formatting-artifact lines that are dropped. -/
def artifactLines : List (List Char) :=
  [str "--", str "____________________________________________________________",
   str "•", str "◦", str "▪"]

/-- The loop over `prefixes_to_remove`: drop the first matching leading
conversational intro from the trimmed content (at most one; `break`),
then re-trim.  If nothing matches the content is returned untouched. -/
def dropAiIntro (content : List Char) : List Char :=
  match aiIntros.find? (fun p => p.isPrefixOf (pyStrip content)) with
  | some p => pyStrip ((pyStrip content).drop p.length)
  | none => content

/-- Em-dash and en-dash normalisation (app.py lines 112-113). -/
def dashNormalize (l : List Char) : List Char :=
  replaceChar '–' '-' (replaceChar '—' '-' l)

/-- Bullet-glyph normalisation (app.py lines 119-121). -/
def bulletNormalize (l : List Char) : List Char :=
  replaceChar '▪' '-' (replaceChar '◦' '-' (replaceChar '•' '-' l))

/-- The per-line keep test of the cleanup loop (app.py lines 127-145),
applied to the already stripped line. -/
def keepLine (l : List Char) : Bool :=
  let low := lowerStr l
  !(aiPhrases.any (fun p => listHas p low)) &&
  !(artifactLines.contains l) &&
  !((str "abilityfirst").isPrefixOf low && listHas (str "information security policy") low) &&
  !l.isEmpty

/-- The cleanup loop over the split lines: strip each line, drop it when
one of the skip rules fires or it is empty. -/
def cleanLines (ls : List (List Char)) : List (List Char) :=
  ls.filterMap (fun raw => let l := pyStrip raw; if keepLine l then some l else none)

/-- The full sanitizing transform of `generate_policy_content`
(app.py lines 97-147): intro removal, dash normalisation, bold-marker
removal, bullet normalisation, then line-level filtering and re-joining. -/
def cleanContent (content : List Char) : List Char :=
  joinWith ['\n']
    (cleanLines (splitOnNl (bulletNormalize (removeTwin '*' (dashNormalize (dropAiIntro content))))))

example : cleanContent (str "Certainly! This policy covers X") = str "This policy covers X" := by
  decide

example : cleanContent (cleanContent (str "Certainly! This policy covers X")) = str "covers X" := by
  decide

/-! ## Completion-client fallback loop (app.py lines 71-93) -/

/-- The Azure deployment candidates tried in order. -/
def modelNames : List (List Char) := [str "gpt-5-chat", str "gpt-4o"]

/-- The per-candidate failure text recorded in `last_error`. -/
def modelErrFmt (name err : List Char) : List Char :=
  str "Model " ++ name ++ str ": " ++ err

/-- The message of the exception raised when no candidate succeeded
(`str(None)` is rendered for an untouched `last_error`). -/
def allFailedMsg (lastErr : Option (List Char)) : List Char :=
  str "All models failed. Last error: " ++ (match lastErr with | some e => e | none => str "None")

/-- The fallback loop over the candidate models: return the first
successful response; on failure remember only the latest per-candidate
message and move on; raise once the list is exhausted. -/
def tryModels (call : List Char → Except (List Char) (List Char)) :
    List (List Char) → Option (List Char) → Except (List Char) (List Char)
  | [], lastErr => .error (allFailedMsg lastErr)
  | m :: rest, lastErr =>
      match call m with
      | .ok r => .ok r
      | .error e => tryModels call rest (some (modelErrFmt m e))

/-- `generate_policy_content` seen from its caller, abstracted over the
outcome of the completion step: a success payload is sanitized, any
caught failure is rendered through the sentinel error text. -/
def genPolicyContentO (outcome : Except (List Char) (List Char)) : List Char :=
  match outcome with
  | .ok raw => cleanContent raw
  | .error e => str "Error generating policy content: " ++ e

/-- `generate_policy_content` with the completion client plugged in. -/
def genPolicyContent (call : List Char → Except (List Char) (List Char)) : List Char :=
  genPolicyContentO (tryModels call modelNames none)

/-! ## Document renderer (`create_word_document`, app.py lines 194-226) -/

/-- A block element emitted into the Word document body. -/
inductive Block where
  | heading (level : Nat) (text : List Char)
  | bullet (text : List Char)
  | numbered (text : List Char)
  | para (text : List Char)
  deriving DecidableEq, Repr

/-- Python `str.isupper()` on the ASCII range: at least one cased
character and no lowercase one. -/
def pyIsUpper (l : List Char) : Bool :=
  l.any Char.isAlpha && l.all (fun c => !c.isLower)

/-- The numbered-item test: first character a nonzero digit and
". " or ") " occurring within the first five characters. -/
def numberedTest (line : List Char) : Bool :=
  (match line.head? with
   | some c => (str "123456789").contains c
   | none => false) &&
  (listHas (str ". ") (line.take 5) || listHas (str ") ") (line.take 5))

/-- The shape a (stripped) line is classified into, following the
`if`/`elif` chain of the rendering loop in source order. -/
inductive LineKind where
  | blank
  | hd2
  | hd1
  | hdColon
  | bull
  | num
  | plain
  deriving DecidableEq, Repr

/-- Classification of a stripped line, mirroring the branch order of the
loop (app.py lines 199-221). -/
def classify (line : List Char) : LineKind :=
  if line.isEmpty then .blank
  else if (str "##").isPrefixOf line then .hd2
  else if (str "#").isPrefixOf line then .hd1
  else if line.getLast? == some ':' || (pyIsUpper line && decide (line.length > 10)) then .hdColon
  else if line.head? == some '-' || line.head? == some '•' || (str "* ").isPrefixOf line then .bull
  else if numberedTest line then .num
  else .plain

/-- Rendering state: blocks already materialised in the document plus
the text of the currently open paragraph, if any. -/
abbrev RenderState := List Block × Option (List Char)

/-- Flush the open paragraph accumulator, if any, into the block list. -/
def closePara (st : RenderState) : List Block :=
  match st.2 with
  | some t => st.1 ++ [Block.para t]
  | none => st.1

/-- One iteration of the rendering loop on a raw line. -/
def lineStep (st : RenderState) (raw : List Char) : RenderState :=
  let line := pyStrip raw
  match classify line with
  | .blank =>
      match st.2 with
      | some t => (st.1 ++ [Block.para t, Block.para []], none)
      | none => (st.1, none)
  | .hd2 => (closePara st ++ [Block.heading 2 (pyStrip (removeTwin '#' line))], none)
  | .hd1 => (closePara st ++ [Block.heading 1 (pyStrip (line.filter (fun c => c ≠ '#')))], none)
  | .hdColon => (closePara st ++ [Block.heading 2 (dropTrailIf (fun c => c == ':') line)], none)
  | .bull =>
      (closePara st ++
        [Block.bullet (pyStrip (if line.head? == some '-' then line.drop 1 else line.drop 2))],
       none)
  | .num => (closePara st ++ [Block.numbered line], none)
  | .plain =>
      match st.2 with
      | some t => (st.1, some (if t.isEmpty then line else t ++ ' ' :: line))
      | none => (st.1, some line)

/-- The body blocks produced by the line-driven part of
`create_word_document` for a given policy text. -/
def renderContent (content : List Char) : List Block :=
  closePara ((splitOnNl content).foldl lineStep ([], none))

example :
    renderContent (str "# A\n\nSome body.\n\n- item one\n- item two\n1. first\n") =
      [Block.heading 1 (str "A"), Block.para (str "Some body."), Block.para [],
       Block.bullet (str "item one"), Block.bullet (str "item two"),
       Block.numbered (str "1. first")] := by
  decide

example : renderContent (str "TOTAL BUDGETS") = [Block.heading 2 (str "TOTAL BUDGETS")] := by
  decide

/-! ## Technology mapper (`_map_technology_stack`, itglue_integration.py lines 284-402) -/

/-- The form pre-fill fields produced by the technology mapper; a field
with no matching rule stays `none` (absent from the Python dict). -/
structure TechFields where
  platform_choice : Option (List Char)
  mdr_solution : Option (List Char)
  email_security : Option (List Char)
  siem_solution : Option (List Char)
  pam_solution : Option (List Char)
  disk_encryption : Option (List Char)
  mdm_computers : Option (List Char)
  mdm_mobile : Option (List Char)
  security_training : Option (List Char)
  phishing_tests : Option (List Char)
  vulnerability_scans : Option (List Char)
  dark_web_monitoring : Option (List Char)
  mfa_solution : Option (List Char)
  password_manager : Option (List Char)
  intrusion_detection : Option (List Char)
  deriving DecidableEq, Repr

/-- The concatenated lowercase configuration names scanned by every rule. -/
def techText (names : List (List Char)) : List Char :=
  joinWith [' '] (names.map lowerStr)

/-- Substring test against the combined configuration text. -/
def hasT (t : List Char) (s : String) : Bool := listHas (str s) t

/-- `_map_technology_stack`: keyword rules over the combined lowercase
configuration names, in source order, first match wins; only the
platform and MDR fields fall back to a default. -/
def mapTechStack (names : List (List Char)) : TechFields :=
  let t := techText names
  { platform_choice :=
      some (if hasT t "microsoft 365" || hasT t "office 365" || hasT t "azure" || hasT t "o365"
            then str "Microsoft 365 / Azure"
            else if hasT t "google workspace" || hasT t "gmail" || hasT t "gsuite"
            then str "Google Workspace"
            else str "Microsoft 365 / Azure")
    mdr_solution :=
      some (if hasT t "sophos" then str "Sophos MDR"
            else if hasT t "crowdstrike" || hasT t "sentinel" then str "Other MDR"
            else if hasT t "antivirus" || hasT t "defender" then str "Traditional Antivirus Only"
            else str "Sophos MDR")
    email_security :=
      if hasT t "avanan" then some (str "Avanan Email Security")
      else if hasT t "defender" || hasT t "atp" then some (str "Microsoft Defender")
      else if hasT t "proofpoint" || hasT t "mimecast" then some (str "Other Email Security")
      else none
    siem_solution :=
      if hasT t "siem" || hasT t "splunk" || hasT t "sentinel"
      then some (str "SIEM with SOC monitoring")
      else if hasT t "log" && hasT t "monitor" then some (str "Basic log collection")
      else none
    pam_solution :=
      if hasT t "senhasegura" then some (str "Senhasegura PAM")
      else if hasT t "cyberark" || hasT t "thycotic" || hasT t "beyondtrust"
      then some (str "Other PAM")
      else none
    disk_encryption :=
      if hasT t "bitlocker" then
        (if hasT t "filevault" then some (str "Both BitLocker and FileVault")
         else some (str "BitLocker (Windows)"))
      else if hasT t "filevault" then some (str "FileVault (macOS)")
      else none
    mdm_computers :=
      if hasT t "intune" then some (str "Microsoft Intune")
      else if hasT t "jamf" || hasT t "airwatch" then some (str "Other MDM")
      else none
    mdm_mobile :=
      if hasT t "intune" then some (str "Microsoft Intune")
      else if hasT t "jamf" || hasT t "airwatch" then some (str "Other MDM")
      else none
    security_training :=
      if hasT t "knowbe4" then
        (if hasT t "monthly" then some (str "KnowBe4 Monthly Training")
         else some (str "KnowBe4 Quarterly Training"))
      else none
    phishing_tests :=
      if hasT t "knowbe4" || hasT t "phishing" then some (str "Monthly Phishing Tests")
      else none
    vulnerability_scans :=
      if hasT t "vulnerability" || hasT t "nessus" || hasT t "qualys" then
        (if hasT t "monthly" then some (str "Monthly Vulnerability Scans")
         else some (str "Quarterly Vulnerability Scans"))
      else none
    dark_web_monitoring :=
      if hasT t "darkwebid" || hasT t "dark web" then some (str "DarkWebID Monitoring")
      else if hasT t "breach" && hasT t "monitor" then some (str "Other Dark Web Monitoring")
      else none
    mfa_solution :=
      if hasT t "microsoft" && (hasT t "mfa" || hasT t "authenticator")
      then some (str "Microsoft MFA")
      else if hasT t "duo" then some (str "Duo Security")
      else if hasT t "mfa" || hasT t "two-factor" || hasT t "2fa" then some (str "Other MFA")
      else none
    password_manager :=
      if hasT t "lastpass" then some (str "LastPass Business")
      else if hasT t "1password" || hasT t "dashlane" || hasT t "keeper"
      then some (str "Other Password Manager")
      else none
    intrusion_detection :=
      if hasT t "ids" || hasT t "ips" || hasT t "intrusion"
      then some (str "Network Intrusion Detection System")
      else if hasT t "firewall" && (hasT t "sonicwall" || hasT t "fortinet" || hasT t "palo alto")
      then some (str "Firewall with IDS/IPS")
      else if hasT t "firewall" || hasT t "meraki" then some (str "Basic Firewall")
      else none }

/-! ## The `/generate_policy` endpoint (app.py lines 240-304) -/

/-- Raw submitted form values: the six named text fields plus the raw
values of the sixteen technology-selection fields, in source order. -/
structure RawForm where
  client_name : List Char
  industry : List Char
  company_size : List Char
  policy_type : List Char
  compliance_requirements : List Char
  additional_requirements : List Char
  techValues : List (List Char)

/-- Processed form data after trimming and technology-stack assembly. -/
structure FormData where
  client_name : List Char
  industry : List Char
  company_size : List Char
  policy_type : List Char
  compliance_requirements : List Char
  additional_requirements : List Char
  tech_stack : List Char

/-- Form processing (app.py lines 244-268): trim every field, keep the
non-empty technology selections other than the literal `None`, join them
or fall back to the fixed default stack. -/
def processForm (f : RawForm) : FormData :=
  let comps := (f.techValues.map pyStrip).filter
    (fun v => !v.isEmpty && !(v == str "None"))
  { client_name := pyStrip f.client_name
    industry := pyStrip f.industry
    company_size := pyStrip f.company_size
    policy_type := pyStrip f.policy_type
    compliance_requirements := pyStrip f.compliance_requirements
    additional_requirements := pyStrip f.additional_requirements
    tech_stack :=
      if comps.isEmpty then str "Standard business technology stack"
      else joinWith (str ", ") comps }

/-- The required-field check (app.py lines 271-272): names of the
required entries whose value is empty, in source order. -/
def missingFields (fd : FormData) : List (List Char) :=
  (if fd.client_name.isEmpty then [str "client_name"] else []) ++
  (if fd.industry.isEmpty then [str "industry"] else []) ++
  (if fd.company_size.isEmpty then [str "company_size"] else []) ++
  (if fd.policy_type.isEmpty then [str "policy_type"] else []) ++
  (if fd.tech_stack.isEmpty then [str "tech_stack"] else [])

/-- HTTP outcomes of the endpoint that matter to the claims. -/
inductive Response where
  | badReq (msg : List Char)
  | srvErr (msg : List Char)
  | doc (blocks : List Block)
  deriving DecidableEq

/-- The endpoint (app.py lines 240-304), abstracted over the outcome of
the completion step; the second component counts how many times the
generation step was invoked on the request. -/
def generatePolicyEndpoint (outcome : Except (List Char) (List Char)) (f : RawForm) :
    Response × Nat :=
  let fd := processForm f
  let missing := missingFields fd
  if missing.isEmpty then
    let payload := genPolicyContentO outcome
    if (str "Error generating policy content:").isPrefixOf payload then
      (Response.srvErr payload, 1)
    else
      (Response.doc (renderContent payload), 1)
  else
    (Response.badReq (str "Missing required fields: " ++ joinWith (str ", ") missing), 0)

example :
    (mapTechStack [str "Sophos Endpoint", str "Azure AD", str "BitLocker Drive Encryption"]).disk_encryption
      = some (str "BitLocker (Windows)") := by
  decide

/-- Absence of two adjacent occurrences of the character `x`; the
invariant established by `removeTwin` and preserved downstream. -/
def noTwin (x : Char) : List Char → Bool
  | [] => true
  | [_] => true
  | a :: b :: rest => !(a == x && b == x) && noTwin x (b :: rest)

/-! # Theorems -/

/-! ## Basic lemmas about the string model -/

theorem isPrefixOf_append_self (l t : List Char) : l.isPrefixOf (l ++ t) = true := by
  induction l with
  | nil => cases t <;> rfl
  | cons c rest ih => simpa [List.isPrefixOf] using ih

theorem isPrefixOf_self (l : List Char) : l.isPrefixOf l = true := by
  simpa using isPrefixOf_append_self l []

theorem listHas_append_self (p xs : List Char) : listHas p (xs ++ p) = true := by
  induction xs with
  | nil =>
      cases p with
      | nil => rfl
      | cons c rest => simp [listHas, isPrefixOf_self]
  | cons c rest ih => simp [listHas, ih]

/-! ## Claim C1: failure message of the completion fallback loop -/

/-- Claim C1, counterexample: with both candidate models failing (first
with "alpha", second with "beta"), the raised message retains only the
last per-candidate reason; the first reason "alpha" does not occur in
it, so the message is not the concatenation of all per-candidate error
messages. -/
theorem c1_counterexample :
    tryModels
        (fun m => .error (if m = str "gpt-5-chat" then str "alpha" else str "beta"))
        modelNames none =
      .error (str "All models failed. Last error: Model gpt-4o: beta") ∧
    listHas (str "alpha") (str "All models failed. Last error: Model gpt-4o: beta") = false := by
  constructor
  · rfl
  · decide

/-- Claim C1, amended: when every candidate model fails, the loop fails
with a message that keeps only the LAST candidate's failure reason
(formatted "Model name: reason" after the fixed "All models failed."
text); that last reason is contained in the message, but earlier
candidates' reasons are discarded along the way. -/
theorem c1_all_fail_keeps_last_error (errf : List Char → List Char)
    (ms : List (List Char)) (m : List Char) (acc : Option (List Char)) :
    tryModels (fun x => .error (errf x)) (ms ++ [m]) acc =
      .error (allFailedMsg (some (modelErrFmt m (errf m)))) ∧
    listHas (errf m) (allFailedMsg (some (modelErrFmt m (errf m)))) = true := by
  constructor
  · induction ms generalizing acc with
    | nil => rfl
    | cons m' rest ih => simpa [tryModels] using ih _
  · show listHas (errf m) (str "All models failed. Last error: " ++ (str "Model " ++ m ++ str ": " ++ errf m)) = true
    have h : str "All models failed. Last error: " ++ (str "Model " ++ m ++ str ": " ++ errf m) =
        (str "All models failed. Last error: " ++ (str "Model " ++ m ++ str ": ")) ++ errf m := by
      simp
    rw [h]
    exact listHas_append_self _ _

/-! ## Claim C5: at most one conversational intro is stripped -/

/-- Claim C5: if `p` is the first entry of the intro list (in the fixed
source order) matching the start of the trimmed content, the intro step
removes exactly that one occurrence and returns the trimmed remainder —
even when the remainder itself begins with another enumerated intro. -/
theorem c5_first_intro_wins (content p r : List Char) (l₁ l₂ : List (List Char))
    (hsplit : aiIntros = l₁ ++ p :: l₂)
    (hnomatch : ∀ q ∈ l₁, q.isPrefixOf (pyStrip content) = false)
    (hmatch : p.isPrefixOf (pyStrip content) = true)
    (hdecomp : pyStrip content = p ++ r) :
    dropAiIntro content = pyStrip r := by
  have hfind : aiIntros.find? (fun q => q.isPrefixOf (pyStrip content)) = some p := by
    rw [hsplit]
    clear hsplit hdecomp
    induction l₁ with
    | nil => simp [List.find?_cons, hmatch]
    | cons q l ih =>
        rw [List.cons_append, List.find?_cons_of_neg]
        · exact ih (fun q' hq' => hnomatch q' (List.mem_cons_of_mem q hq'))
        · simp [hnomatch q (List.mem_cons_self q l)]
  simp only [dropAiIntro]
  rw [hfind]
  show pyStrip (List.drop p.length (pyStrip content)) = pyStrip r
  rw [hdecomp, List.drop_left]

/-- Witness for C5 at a concrete input whose remainder starts with
another enumerated intro ("Sure,"), showing only one intro is removed. -/
theorem c5_witness :
    dropAiIntro (str "Certainly! Sure, hello") = str "Sure, hello" ∧
    (str "Sure,") ∈ aiIntros ∧
    (str "Sure,").isPrefixOf (str "Sure, hello") = true := by
  refine ⟨?_, by decide, by decide⟩
  have h := c5_first_intro_wins (str "Certainly! Sure, hello") (str "Certainly!")
    (str " Sure, hello") [] (aiIntros.drop 1) (by decide)
    (fun q hq => absurd hq (List.not_mem_nil q)) (by decide) (by decide)
  exact h.trans (by decide)

/-! ## Claim C9: validation happens before any external call -/

/-- Claim C9: when any required field is empty after trimming, the
endpoint answers with the 400 validation error naming the missing
fields, and the completion step is never invoked (invocation count 0);
the response does not depend on the completion outcome at all. -/
theorem c9_validation_first (outcome : Except (List Char) (List Char)) (f : RawForm)
    (h : missingFields (processForm f) ≠ []) :
    generatePolicyEndpoint outcome f =
      (Response.badReq
        (str "Missing required fields: " ++ joinWith (str ", ") (missingFields (processForm f))),
       0) := by
  have hm : (missingFields (processForm f)).isEmpty = false := by
    cases he : missingFields (processForm f) with
    | nil => exact absurd he h
    | cons a l => rfl
  simp only [generatePolicyEndpoint, hm, Bool.false_eq_true, if_false]

/-- Witness for C9: empty client name, a dummy successful completion
outcome; the request is rejected with 400 and zero completion calls. -/
theorem c9_witness :
    generatePolicyEndpoint (.ok (str "content"))
        { client_name := str "  ", industry := str "Legal", company_size := str "Small",
          policy_type := str "Acceptable Use Policy", compliance_requirements := [],
          additional_requirements := [], techValues := [str "Sophos MDR"] } =
      (Response.badReq (str "Missing required fields: client_name"), 0) := by
  have h := c9_validation_first (.ok (str "content"))
    { client_name := str "  ", industry := str "Legal", company_size := str "Small",
      policy_type := str "Acceptable Use Policy", compliance_requirements := [],
      additional_requirements := [], techValues := [str "Sophos MDR"] }
    (by decide)
  exact h.trans (by decide)

/-! ## Claim C2: sentinel-string error channel of the generation step -/

/-- Claim C2: on a validated form, any payload that begins with the
fixed sentinel text makes the endpoint answer 500 with that payload and
produce no document — whatever the payload's origin — and conversely
every caught generation failure is rendered as text beginning with the
sentinel rather than raising. -/
theorem c2_sentinel_detection (oc : Except (List Char) (List Char)) (f : RawForm)
    (hvalid : missingFields (processForm f) = []) :
    (∀ e, oc = .error e →
      (str "Error generating policy content:").isPrefixOf (genPolicyContentO oc) = true) ∧
    ((str "Error generating policy content:").isPrefixOf (genPolicyContentO oc) = true →
      generatePolicyEndpoint oc f = (Response.srvErr (genPolicyContentO oc), 1) ∧
      ∀ bs n, generatePolicyEndpoint oc f ≠ (Response.doc bs, n)) := by
  have hm : (missingFields (processForm f)).isEmpty = true := by rw [hvalid]; rfl
  constructor
  · intro e he
    subst he
    show (str "Error generating policy content:").isPrefixOf
      (str "Error generating policy content: " ++ e) = true
    have h1 : str "Error generating policy content: " =
        str "Error generating policy content:" ++ [' '] := by decide
    rw [h1, List.append_assoc]
    exact isPrefixOf_append_self _ _
  · intro hp
    constructor
    · simp only [generatePolicyEndpoint, hm, if_true, hp]
    · intro bs n
      simp only [generatePolicyEndpoint, hm, if_true, hp]
      intro hcontra
      exact Response.noConfusion (congrArg Prod.fst hcontra)

/-- Witness for C2 on the misclassification run: the model call
succeeds, the sanitized content itself happens to begin with the
sentinel text, and the endpoint reports a 500 with no document. -/
theorem c2_witness :
    generatePolicyEndpoint (.ok (str "Error generating policy content: oops"))
        { client_name := str "Acme", industry := str "Legal", company_size := str "Small",
          policy_type := str "Acceptable Use Policy", compliance_requirements := [],
          additional_requirements := [], techValues := [] } =
      (Response.srvErr (str "Error generating policy content: oops"), 1) := by
  have h := (c2_sentinel_detection (.ok (str "Error generating policy content: oops"))
    { client_name := str "Acme", industry := str "Legal", company_size := str "Small",
      policy_type := str "Acceptable Use Policy", compliance_requirements := [],
      additional_requirements := [], techValues := [] } (by decide)).2 (by decide)
  exact h.1.trans (by decide)

/-! ## Claim C8: technology mapper -/

/-- Claim C8: the cited configuration triple maps to exactly the three
claimed fields (every other field absent); platform choice and MDR are
always populated (explicit fallback defaults); the first matching rule
wins (a "sophos" hit forces "Sophos MDR" whatever else matches); and a
field with no matching rule, such as email security, is absent exactly
when none of its rule conditions holds. -/
theorem c8_tech_mapping :
    (mapTechStack [str "Sophos Endpoint", str "Azure AD", str "BitLocker Drive Encryption"] =
      { platform_choice := some (str "Microsoft 365 / Azure")
        mdr_solution := some (str "Sophos MDR")
        email_security := none
        siem_solution := none
        pam_solution := none
        disk_encryption := some (str "BitLocker (Windows)")
        mdm_computers := none
        mdm_mobile := none
        security_training := none
        phishing_tests := none
        vulnerability_scans := none
        dark_web_monitoring := none
        mfa_solution := none
        password_manager := none
        intrusion_detection := none }) ∧
    (∀ names, (mapTechStack names).platform_choice.isSome = true ∧
      (mapTechStack names).mdr_solution.isSome = true) ∧
    (∀ names, hasT (techText names) "sophos" = true →
      (mapTechStack names).mdr_solution = some (str "Sophos MDR")) ∧
    (∀ names, (mapTechStack names).email_security = none ↔
      (hasT (techText names) "avanan" = false ∧ hasT (techText names) "defender" = false ∧
       hasT (techText names) "atp" = false ∧ hasT (techText names) "proofpoint" = false ∧
       hasT (techText names) "mimecast" = false)) := by
  refine ⟨by decide, fun names => ⟨by simp [mapTechStack], by simp [mapTechStack]⟩,
    fun names h => by simp [mapTechStack, h], fun names => ?_⟩
  simp only [mapTechStack]
  constructor
  · intro h
    split at h
    · exact absurd h (Option.some_ne_none _)
    · split at h
      · exact absurd h (Option.some_ne_none _)
      · split at h
        · exact absurd h (Option.some_ne_none _)
        · rename_i h1 h2 h3
          simp only [Bool.or_eq_true, not_or, Bool.not_eq_true] at h1 h2 h3
          exact ⟨h1, h2.1, h2.2, h3.1, h3.2⟩
  · rintro ⟨h1, h2, h3, h4, h5⟩
    simp [h1, h2, h3, h4, h5]

/-- Witness for C8: a configuration list matching both the "sophos" and
the "crowdstrike" rules still maps MDR to "Sophos MDR" (first rule in
source order wins). -/
theorem c8_witness :
    (mapTechStack [str "Sophos X", str "CrowdStrike Falcon"]).mdr_solution =
      some (str "Sophos MDR") :=
  c8_tech_mapping.2.2.1 [str "Sophos X", str "CrowdStrike Falcon"] (by decide)

/-! ## Claims C6 and C7: the rendering loop -/

theorem joinWith_glue (sep a b : List Char) (ls : List (List Char)) :
    joinWith sep ((a ++ sep ++ b) :: ls) = a ++ sep ++ joinWith sep (b :: ls) := by
  cases ls with
  | nil => rfl
  | cons c ls' => simp [joinWith]

theorem classify_plain_not_empty (l : List Char) (h : classify l = LineKind.plain) :
    l.isEmpty = false := by
  by_contra hc
  have he : l.isEmpty = true := by revert hc; cases l.isEmpty <;> simp
  rw [classify, if_pos he] at h
  exact LineKind.noConfusion h

theorem lineStep_plain (bs : List Block) (cur : Option (List Char)) (l : List Char)
    (hstrip : pyStrip l = l) (hc : classify l = LineKind.plain) :
    lineStep (bs, cur) l =
      (bs, some (match cur with
                 | some t => if t.isEmpty then l else t ++ ' ' :: l
                 | none => l)) := by
  cases cur <;> simp [lineStep, hstrip, hc]

/-- Paragraph accumulation: over a run of plain lines, the open
paragraph collects the lines joined by single spaces. -/
theorem foldl_plain_merge (ls : List (List Char)) :
    ∀ (bs : List Block) (t : List Char), t ≠ [] →
    (∀ l ∈ ls, pyStrip l = l ∧ classify l = LineKind.plain) →
    ls.foldl lineStep (bs, some t) = (bs, some (joinWith [' '] (t :: ls))) := by
  induction ls with
  | nil => intro bs t _ _; rfl
  | cons l rest ih =>
      intro bs t ht hall
      have hl := hall l (List.mem_cons_self l rest)
      have hstep : lineStep (bs, some t) l = (bs, some (t ++ ' ' :: l)) := by
        rw [lineStep_plain bs (some t) l hl.1 hl.2]
        have hte : t.isEmpty = false := by cases t with | nil => exact absurd rfl ht | cons a r => rfl
        simp [hte]
      rw [List.foldl_cons, hstep,
        ih bs (t ++ ' ' :: l) (by simp) (fun x hx => hall x (List.mem_cons_of_mem l hx))]
      have hg : t ++ ' ' :: l = t ++ [' '] ++ l := by simp
      rw [hg, joinWith_glue]
      rfl

/-- Claim C6, counterexample: on the cited input the renderer does not
emit exactly the five claimed blocks — the blank source line after the
paragraph also materialises an empty spacer paragraph in the document. -/
theorem c6_counterexample :
    renderContent (str "# A\n\nSome body.\n\n- item one\n- item two\n1. first\n") ≠
      [Block.heading 1 (str "A"), Block.para (str "Some body."),
       Block.bullet (str "item one"), Block.bullet (str "item two"),
       Block.numbered (str "1. first")] := by
  decide

/-- Claim C6, amended: the cited input renders, in source-line order, as
heading-1 "A", the paragraph "Some body.", an empty spacer paragraph
(added when the blank line closes the open paragraph), the two bullet
items and the numbered item; and in general a non-empty run of plain
lines accumulates into a single open paragraph joined with single
spaces. -/
theorem c6_render_blocks :
    (renderContent (str "# A\n\nSome body.\n\n- item one\n- item two\n1. first\n") =
      [Block.heading 1 (str "A"), Block.para (str "Some body."), Block.para [],
       Block.bullet (str "item one"), Block.bullet (str "item two"),
       Block.numbered (str "1. first")]) ∧
    (∀ (bs : List Block) (ls : List (List Char)), ls ≠ [] →
      (∀ l ∈ ls, pyStrip l = l ∧ classify l = LineKind.plain) →
      ls.foldl lineStep (bs, none) = (bs, some (joinWith [' '] ls))) := by
  refine ⟨by decide, fun bs ls hne hall => ?_⟩
  cases ls with
  | nil => exact absurd rfl hne
  | cons l rest =>
      have hl := hall l (List.mem_cons_self l rest)
      have hstep : lineStep (bs, none) l = (bs, some l) := by
        rw [lineStep_plain bs none l hl.1 hl.2]
      have hlne : l ≠ [] := by
        intro hn
        have := classify_plain_not_empty l hl.2
        rw [hn] at this
        exact Bool.noConfusion this
      rw [List.foldl_cons, hstep,
        foldl_plain_merge rest bs l hlne (fun x hx => hall x (List.mem_cons_of_mem l hx))]

/-- Witness for C6 on a concrete two-line plain run. -/
theorem c6_witness :
    [str "alpha beta", str "gamma"].foldl lineStep ([], none) =
      ([], some (str "alpha beta gamma")) := by
  have h := c6_render_blocks.2 [] [str "alpha beta", str "gamma"] (by simp) (by decide)
  exact h.trans (by decide)

/-- Claim C7, counterexample: on the line "# A#B" the renderer removes
EVERY occurrence of the marker character, emitting heading text "AB",
not "A#B" as only-leading-marker stripping would give. -/
theorem c7_counterexample :
    renderContent (str "# A#B") = [Block.heading 1 (str "AB")] ∧
    renderContent (str "# A#B") ≠ [Block.heading 1 (str "A#B")] := by
  constructor <;> decide

/-- Claim C7, amended: a "##" line becomes a level-2 heading whose text
is the line with all "##" pairs deleted and then trimmed; a "#" line
(not "##") becomes a level-1 heading with every '#' deleted and
trimmed; and — provided the earlier colon/upper-case branch does not
fire — a '-' line drops exactly its first character, while a bullet
glyph or "* " line drops its first TWO characters, the remainder
trimmed, emitted as a bullet item. -/
theorem c7_marker_handling (l : List Char) (bs : List Block) (cur : Option (List Char))
    (hstrip : pyStrip l = l) :
    ((str "##").isPrefixOf l = true →
      lineStep (bs, cur) l =
        (closePara (bs, cur) ++ [Block.heading 2 (pyStrip (removeTwin '#' l))], none)) ∧
    ((str "##").isPrefixOf l = false → (str "#").isPrefixOf l = true →
      lineStep (bs, cur) l =
        (closePara (bs, cur) ++ [Block.heading 1 (pyStrip (l.filter (fun c => c ≠ '#')))], none)) ∧
    (∀ _ : (l.getLast? == some ':' || (pyIsUpper l && decide (l.length > 10))) = false,
      (l.head? = some '-' →
        lineStep (bs, cur) l =
          (closePara (bs, cur) ++ [Block.bullet (pyStrip (l.drop 1))], none)) ∧
      (l.head? = some '•' →
        lineStep (bs, cur) l =
          (closePara (bs, cur) ++ [Block.bullet (pyStrip (l.drop 2))], none)) ∧
      ((str "* ").isPrefixOf l = true →
        lineStep (bs, cur) l =
          (closePara (bs, cur) ++ [Block.bullet (pyStrip (l.drop 2))], none))) := by
  refine ⟨?_, ?_, fun hguard => ⟨?_, ?_, ?_⟩⟩
  · intro h2
    have hne : l.isEmpty = false := by
      cases l with
      | nil => simp [str, List.isPrefixOf] at h2
      | cons c r => rfl
    have hc : classify l = LineKind.hd2 := by rw [classify]; simp [hne, h2]
    simp [lineStep, hstrip, hc]
  · intro hn2 h1
    have hne : l.isEmpty = false := by
      cases l with
      | nil => simp [str, List.isPrefixOf] at h1
      | cons c r => rfl
    have hc : classify l = LineKind.hd1 := by rw [classify]; simp [hne, hn2, h1]
    simp [lineStep, hstrip, hc]
  · intro hd
    obtain ⟨r, rfl⟩ : ∃ r, l = '-' :: r := by
      cases l with
      | nil => exact absurd hd (by simp)
      | cons c r =>
          refine ⟨r, ?_⟩
          have : c = '-' := by simpa using hd
          rw [this]
    have hc : classify ('-' :: r) = LineKind.bull := by
      rw [classify]
      simp only [hguard]
      simp [str, List.isPrefixOf]
    simp [lineStep, hstrip, hc]
  · intro hd
    obtain ⟨r, rfl⟩ : ∃ r, l = '•' :: r := by
      cases l with
      | nil => exact absurd hd (by simp)
      | cons c r =>
          refine ⟨r, ?_⟩
          have : c = '•' := by simpa using hd
          rw [this]
    have hc : classify ('•' :: r) = LineKind.bull := by
      rw [classify]
      simp only [hguard]
      simp [str, List.isPrefixOf]
    simp [lineStep, hstrip, hc]
  · intro hstar
    obtain ⟨r, rfl⟩ : ∃ r, l = '*' :: ' ' :: r := by
      cases l with
      | nil => exact absurd hstar (by simp [str, List.isPrefixOf])
      | cons c rest =>
          cases rest with
          | nil =>
              exfalso
              simp [str, List.isPrefixOf] at hstar
          | cons d r =>
              have hcd : c = '*' ∧ d = ' ' := by
                have := hstar
                simp [str, List.isPrefixOf] at this
                exact ⟨this.1.symm, this.2.symm⟩
              exact ⟨r, by rw [hcd.1, hcd.2]⟩
    have hc : classify ('*' :: ' ' :: r) = LineKind.bull := by
      rw [classify]
      simp only [hguard]
      simp [str, List.isPrefixOf]
    simp [lineStep, hstrip, hc]

/-- Witness for C7 at the line "## Scope": a level-2 heading "Scope". -/
theorem c7_witness :
    lineStep ([], none) (str "## Scope") = ([Block.heading 2 (str "Scope")], none) := by
  have h := (c7_marker_handling (str "## Scope") [] none (by decide)).1 (by decide)
  exact h.trans (by decide)

/-! ## Lemmas about trimming -/

theorem dropLead_head_not_space (l : List Char) :
    ∀ c, (dropLead l).head? = some c → isPySpace c = false := by
  induction l with
  | nil => intro c hc; simp [dropLead] at hc
  | cons a rest ih =>
      intro c hc
      by_cases ha : isPySpace a = true
      · rw [dropLead, List.dropWhile_cons, if_pos ha] at hc
        exact ih c hc
      · rw [dropLead, List.dropWhile_cons, if_neg ha] at hc
        cases hc
        simpa using ha

theorem dropLead_of_head (l : List Char)
    (h : ∀ c, l.head? = some c → isPySpace c = false) : dropLead l = l := by
  cases l with
  | nil => rfl
  | cons a rest =>
      have := h a rfl
      rw [dropLead, List.dropWhile_cons, if_neg (by simp [this])]

theorem dropLead_suffix_decomp (l : List Char) : ∃ t, t ++ dropLead l = l := by
  induction l with
  | nil => exact ⟨[], rfl⟩
  | cons a rest ih =>
      by_cases ha : isPySpace a = true
      · obtain ⟨t, ht⟩ := ih
        exact ⟨a :: t, by rw [dropLead, List.dropWhile_cons, if_pos ha]; simpa using ht⟩
      · exact ⟨[], by rw [dropLead, List.dropWhile_cons, if_neg ha]; rfl⟩

theorem dropTrailIf_pre_decomp (p : Char → Bool) (l : List Char) :
    ∃ t, dropTrailIf p l ++ t = l := by
  induction l with
  | nil => exact ⟨[], rfl⟩
  | cons c rest ih =>
      obtain ⟨t, ht⟩ := ih
      simp only [dropTrailIf]
      by_cases hr : (dropTrailIf p rest).isEmpty = true
      · have hnil : dropTrailIf p rest = [] := by
          revert hr; cases dropTrailIf p rest <;> simp
        rw [hnil] at ht
        by_cases hpc : p c = true
        · exact ⟨c :: rest, by simp [hr, hpc]⟩
        · exact ⟨rest, by simp [hr, hpc]⟩
      · have hr' : (dropTrailIf p rest).isEmpty = false := by
          revert hr; cases (dropTrailIf p rest).isEmpty <;> simp
        exact ⟨t, by simp [hr']; exact ht⟩

theorem dropTrailIf_idem (p : Char → Bool) (l : List Char) :
    dropTrailIf p (dropTrailIf p l) = dropTrailIf p l := by
  induction l with
  | nil => rfl
  | cons c rest ih =>
      simp only [dropTrailIf]
      by_cases hr : (dropTrailIf p rest).isEmpty = true
      · simp only [hr, if_true]
        by_cases hpc : p c = true
        · simp [hpc, dropTrailIf]
        · simp [hpc, dropTrailIf]
      · have hr' : (dropTrailIf p rest).isEmpty = false := by
          revert hr; cases (dropTrailIf p rest).isEmpty <;> simp
        simp only [hr', if_false, Bool.false_eq_true]
        simp only [dropTrailIf, ih, hr', if_false, Bool.false_eq_true]

theorem dropTrailIf_head (p : Char → Bool) (l : List Char) :
    dropTrailIf p l = [] ∨ (dropTrailIf p l).head? = l.head? := by
  cases l with
  | nil => exact Or.inl rfl
  | cons c rest =>
      simp only [dropTrailIf]
      by_cases hr : (dropTrailIf p rest).isEmpty = true
      · by_cases hpc : p c = true
        · simp [hr, hpc]
        · simp [hr, hpc]
      · have hr' : (dropTrailIf p rest).isEmpty = false := by
          revert hr; cases (dropTrailIf p rest).isEmpty <;> simp
        simp [hr']

theorem pyStrip_idem (l : List Char) : pyStrip (pyStrip l) = pyStrip l := by
  show pyStrip (dropTrailIf isPySpace (dropLead l)) = pyStrip l
  have h1 : dropLead (dropTrailIf isPySpace (dropLead l)) = dropTrailIf isPySpace (dropLead l) := by
    apply dropLead_of_head
    intro c hc
    rcases dropTrailIf_head isPySpace (dropLead l) with h | h
    · rw [h] at hc; cases hc
    · rw [h] at hc
      exact dropLead_head_not_space l c hc
  rw [pyStrip, h1, dropTrailIf_idem]
  rfl

theorem mem_dropLead {c : Char} {l : List Char} (h : c ∈ dropLead l) : c ∈ l := by
  obtain ⟨t, ht⟩ := dropLead_suffix_decomp l
  rw [← ht]
  exact List.mem_append_right t h

theorem mem_dropTrailIf {c : Char} {p : Char → Bool} {l : List Char}
    (h : c ∈ dropTrailIf p l) : c ∈ l := by
  obtain ⟨t, ht⟩ := dropTrailIf_pre_decomp p l
  rw [← ht]
  exact List.mem_append_left t h

theorem mem_pyStrip {c : Char} {l : List Char} (h : c ∈ pyStrip l) : c ∈ l :=
  mem_dropLead (mem_dropTrailIf h)

/-! ## Lemmas about character replacement -/

theorem mem_replaceChar {c a b : Char} {l : List Char} (h : c ∈ replaceChar a b l) :
    c = b ∨ c ∈ l := by
  obtain ⟨d, hd, heq⟩ := List.mem_map.mp h
  by_cases hda : d = a
  · rw [if_pos hda] at heq
    exact Or.inl heq.symm
  · rw [if_neg hda] at heq
    exact Or.inr (heq ▸ hd)

theorem replaceChar_not_mem_self {a b : Char} (l : List Char) (h : a ≠ b) :
    a ∉ replaceChar a b l := by
  intro hm
  obtain ⟨d, _, heq⟩ := List.mem_map.mp hm
  by_cases hda : d = a
  · rw [if_pos hda] at heq
    exact h heq.symm
  · rw [if_neg hda] at heq
    exact hda heq

theorem replaceChar_keeps_not_mem {x a b : Char} {l : List Char} (hx : x ≠ b) (h : x ∉ l) :
    x ∉ replaceChar a b l := by
  intro hm
  rcases mem_replaceChar hm with h1 | h1
  · exact hx h1
  · exact h h1

theorem replaceChar_id {a b : Char} {l : List Char} (h : a ∉ l) : replaceChar a b l = l := by
  induction l with
  | nil => rfl
  | cons c rest ih =>
      have hca : c ≠ a := fun hc => h (hc ▸ List.mem_cons_self c rest)
      rw [replaceChar, List.map_cons, if_neg hca]
      have := ih (fun hm => h (List.mem_cons_of_mem c hm))
      rw [replaceChar] at this
      rw [this]

/-! ## Lemmas about pair removal (the ** and ## markers) -/

theorem mem_removeTwin {x c : Char} {l : List Char} (h : c ∈ removeTwin x l) : c ∈ l := by
  induction l using removeTwin.induct x with
  | case1 => simpa [removeTwin] using h
  | case2 e => simpa [removeTwin] using h
  | case3 a b rest hc ih =>
      rw [removeTwin, if_pos hc] at h
      exact List.mem_cons_of_mem _ (List.mem_cons_of_mem _ (ih h))
  | case4 a b rest hc ih =>
      rw [removeTwin, if_neg hc] at h
      rcases List.mem_cons.mp h with h1 | h1
      · exact h1 ▸ List.mem_cons_self _ _
      · exact List.mem_cons_of_mem _ (ih h1)

theorem noTwin_tail {x a : Char} {l : List Char} (h : noTwin x (a :: l) = true) :
    noTwin x l = true := by
  cases l with
  | nil => rfl
  | cons b rest => exact (Bool.and_eq_true_iff.mp h).2

theorem noTwin_cons {x a : Char} {l : List Char} (ha : (a == x) = false)
    (h : noTwin x l = true) : noTwin x (a :: l) = true := by
  cases l with
  | nil => rfl
  | cons b rest =>
      rw [noTwin, Bool.and_eq_true_iff]
      exact ⟨by simp [ha], h⟩

theorem removeTwin_head_cases (x : Char) (d : Char) (rest : List Char) :
    (removeTwin x (d :: rest)).head? = some d ∨ (d == x) = true := by
  cases rest with
  | nil => exact Or.inl rfl
  | cons e r =>
      by_cases hc : (d == x && e == x) = true
      · exact Or.inr (Bool.and_eq_true_iff.mp hc).1
      · rw [removeTwin, if_neg hc]
        exact Or.inl rfl

theorem noTwin_removeTwin (x : Char) (l : List Char) : noTwin x (removeTwin x l) = true := by
  induction l using removeTwin.induct x with
  | case1 => rfl
  | case2 e => rfl
  | case3 a b rest hc ih => rw [removeTwin, if_pos hc]; exact ih
  | case4 a b rest hc ih =>
      rw [removeTwin, if_neg hc]
      by_cases hax : (a == x) = true
      · have hbx : (b == x) = false := by
          revert hc hax; cases a == x <;> cases b == x <;> simp
        cases hR : removeTwin x (b :: rest) with
        | nil => rfl
        | cons e R' =>
            rcases removeTwin_head_cases x b rest with hh | hh
            · rw [hR] at hh
              have he : e = b := by simpa using hh
              rw [noTwin, Bool.and_eq_true_iff]
              refine ⟨by simp [he, hbx], ?_⟩
              rw [← hR]; exact ih
            · rw [hh] at hbx; cases hbx
      · have hax' : (a == x) = false := by revert hax; cases a == x <;> simp
        exact noTwin_cons hax' ih

theorem removeTwin_id {x : Char} {l : List Char} (h : noTwin x l = true) :
    removeTwin x l = l := by
  induction l with
  | nil => rfl
  | cons c rest ih =>
      cases rest with
      | nil => rfl
      | cons d r =>
          have h1 := (Bool.and_eq_true_iff.mp h).1
          have h2 := (Bool.and_eq_true_iff.mp h).2
          have hc : (c == x && d == x) = false := by
            revert h1; cases c == x <;> cases d == x <;> simp
          rw [removeTwin, if_neg (by simp [hc]), ih h2]

theorem noTwin_append_left {x : Char} {xs ys : List Char}
    (h : noTwin x (xs ++ ys) = true) : noTwin x xs = true := by
  induction xs with
  | nil => rfl
  | cons a rest ih =>
      cases rest with
      | nil => rfl
      | cons b r =>
          rw [List.cons_append, List.cons_append] at h
          have h1 := (Bool.and_eq_true_iff.mp h).1
          have h2 := (Bool.and_eq_true_iff.mp h).2
          rw [noTwin, Bool.and_eq_true_iff]
          exact ⟨h1, ih (by rw [List.cons_append]; exact h2)⟩

theorem noTwin_append_right {x : Char} {xs ys : List Char}
    (h : noTwin x (xs ++ ys) = true) : noTwin x ys = true := by
  induction xs with
  | nil => exact h
  | cons a rest ih =>
      rw [List.cons_append] at h
      exact ih (noTwin_tail h)

theorem noTwin_sep_join {x sep : Char} (hsep : (sep == x) = false) {xs ys : List Char}
    (hxs : noTwin x xs = true) (hys : noTwin x ys = true) :
    noTwin x (xs ++ sep :: ys) = true := by
  induction xs with
  | nil => exact noTwin_cons hsep hys
  | cons a rest ih =>
      cases rest with
      | nil =>
          rw [List.cons_append, List.nil_append]
          have : noTwin x (sep :: ys) = true := noTwin_cons hsep hys
          cases ys with
          | nil =>
              rw [noTwin, Bool.and_eq_true_iff]
              exact ⟨by simp [hsep], rfl⟩
          | cons e r =>
              rw [noTwin, Bool.and_eq_true_iff]
              exact ⟨by simp [hsep], this⟩
      | cons b r =>
          rw [List.cons_append, List.cons_append]
          have h1 := (Bool.and_eq_true_iff.mp hxs).1
          have h2 := (Bool.and_eq_true_iff.mp hxs).2
          rw [noTwin, Bool.and_eq_true_iff]
          refine ⟨h1, ?_⟩
          have := ih h2
          rwa [List.cons_append] at this

theorem noTwin_map {x : Char} (f : Char → Char) (hf : ∀ c, (f c == x) = (c == x))
    {l : List Char} (h : noTwin x l = true) : noTwin x (l.map f) = true := by
  induction l with
  | nil => rfl
  | cons a rest ih =>
      cases rest with
      | nil => rfl
      | cons b r =>
          rw [List.map_cons, List.map_cons]
          have h1 := (Bool.and_eq_true_iff.mp h).1
          have h2 := (Bool.and_eq_true_iff.mp h).2
          rw [noTwin, Bool.and_eq_true_iff]
          refine ⟨by rw [hf a, hf b]; exact h1, ?_⟩
          have := ih h2
          rwa [List.map_cons] at this

theorem noTwin_replaceChar {x a b : Char} (ha : (a == x) = false) (hb : (b == x) = false)
    {l : List Char} (h : noTwin x l = true) : noTwin x (replaceChar a b l) = true := by
  apply noTwin_map _ _ h
  intro c
  by_cases hca : c = a
  · subst hca
    rw [if_pos rfl, hb, ha]
  · rw [if_neg hca]

theorem noTwin_dropLead {x : Char} {l : List Char} (h : noTwin x l = true) :
    noTwin x (dropLead l) = true := by
  obtain ⟨t, ht⟩ := dropLead_suffix_decomp l
  exact noTwin_append_right (ht ▸ h)

theorem noTwin_pyStrip {x : Char} {l : List Char} (h : noTwin x l = true) :
    noTwin x (pyStrip l) = true := by
  obtain ⟨t, ht⟩ := dropTrailIf_pre_decomp isPySpace (dropLead l)
  exact noTwin_append_left (x := x) (ht ▸ noTwin_dropLead h)

/-! ## Lemmas about line splitting and joining -/

theorem splitOnNl_ne_nil (s : List Char) : splitOnNl s ≠ [] := by
  cases s with
  | nil => simp [splitOnNl]
  | cons c rest =>
      rw [splitOnNl]
      by_cases hc : (c == '\n') = true
      · simp [hc]
      · have hc' : (c == '\n') = false := by revert hc; cases c == '\n' <;> simp
        rw [hc']
        simp only [Bool.false_eq_true, if_false]
        cases splitOnNl rest <;> simp

theorem mem_splitOnNl {c : Char} (s : List Char) :
    ∀ l ∈ splitOnNl s, c ∈ l → c ∈ s := by
  induction s with
  | nil =>
      intro l hl hc
      rw [splitOnNl] at hl
      rcases List.mem_singleton.mp hl with rfl
      exact absurd hc (List.not_mem_nil c)
  | cons a rest ih =>
      intro l hl hc
      rw [splitOnNl] at hl
      by_cases ha : (a == '\n') = true
      · rw [if_pos ha] at hl
        rcases List.mem_cons.mp hl with rfl | hl'
        · exact absurd hc (List.not_mem_nil c)
        · exact List.mem_cons_of_mem a (ih l hl' hc)
      · have ha' : (a == '\n') = false := by revert ha; cases a == '\n' <;> simp
        rw [ha'] at hl
        simp only [Bool.false_eq_true, if_false] at hl
        cases hsp : splitOnNl rest with
        | nil => exact absurd hsp (splitOnNl_ne_nil rest)
        | cons m ms =>
            rw [hsp] at hl
            rcases List.mem_cons.mp hl with rfl | hl'
            · rcases List.mem_cons.mp hc with rfl | hc'
              · exact List.mem_cons_self c rest
              · exact List.mem_cons_of_mem a (ih m (hsp ▸ List.mem_cons_self m ms) hc')
            · exact List.mem_cons_of_mem a (ih l (hsp ▸ List.mem_cons_of_mem m hl') hc)

theorem splitOnNl_no_nl (s : List Char) : ∀ l ∈ splitOnNl s, '\n' ∉ l := by
  induction s with
  | nil =>
      intro l hl
      rcases List.mem_singleton.mp hl with rfl
      exact List.not_mem_nil _
  | cons a rest ih =>
      intro l hl
      rw [splitOnNl] at hl
      by_cases ha : (a == '\n') = true
      · rw [if_pos ha] at hl
        rcases List.mem_cons.mp hl with rfl | hl'
        · exact List.not_mem_nil _
        · exact ih l hl'
      · have ha' : (a == '\n') = false := by revert ha; cases a == '\n' <;> simp
        rw [ha'] at hl
        simp only [Bool.false_eq_true, if_false] at hl
        cases hsp : splitOnNl rest with
        | nil => exact absurd hsp (splitOnNl_ne_nil rest)
        | cons m ms =>
            rw [hsp] at hl
            rcases List.mem_cons.mp hl with rfl | hl'
            · intro hmem
              rcases List.mem_cons.mp hmem with heq | hmem'
              · rw [← heq] at ha'
                simp at ha'
              · exact ih m (hsp ▸ List.mem_cons_self m ms) hmem'
            · exact ih l (hsp ▸ List.mem_cons_of_mem m hl')

theorem splitOnNl_head_cases {s : List Char} {m : List Char} {ms : List (List Char)}
    (h : splitOnNl s = m :: ms) : m = [] ∨ m.head? = s.head? := by
  cases s with
  | nil =>
      rw [splitOnNl] at h
      cases h
      exact Or.inl rfl
  | cons a rest =>
      rw [splitOnNl] at h
      by_cases ha : (a == '\n') = true
      · rw [if_pos ha] at h
        cases h
        exact Or.inl rfl
      · have ha' : (a == '\n') = false := by revert ha; cases a == '\n' <;> simp
        rw [ha'] at h
        simp only [Bool.false_eq_true, if_false] at h
        cases hsp : splitOnNl rest with
        | nil => exact absurd hsp (splitOnNl_ne_nil rest)
        | cons m' ms' =>
            rw [hsp] at h
            cases h
            exact Or.inr rfl

theorem noTwin_splitOnNl {x : Char} (s : List Char) (h : noTwin x s = true) :
    ∀ l ∈ splitOnNl s, noTwin x l = true := by
  induction s with
  | nil =>
      intro l hl
      rcases List.mem_singleton.mp hl with rfl
      rfl
  | cons a rest ih =>
      intro l hl
      rw [splitOnNl] at hl
      by_cases ha : (a == '\n') = true
      · rw [if_pos ha] at hl
        rcases List.mem_cons.mp hl with rfl | hl'
        · rfl
        · exact ih (noTwin_tail h) l hl'
      · have ha' : (a == '\n') = false := by revert ha; cases a == '\n' <;> simp
        rw [ha'] at hl
        simp only [Bool.false_eq_true, if_false] at hl
        cases hsp : splitOnNl rest with
        | nil => exact absurd hsp (splitOnNl_ne_nil rest)
        | cons m ms =>
            rw [hsp] at hl
            rcases List.mem_cons.mp hl with rfl | hl'
            · have hm : noTwin x m = true :=
                ih (noTwin_tail h) m (hsp ▸ List.mem_cons_self m ms)
              cases hmm : m with
              | nil => rfl
              | cons d m' =>
                  rcases splitOnNl_head_cases hsp with hnil | hhead
                  · rw [hnil] at hmm; cases hmm
                  · rw [hmm] at hhead
                    cases rest with
                    | nil => cases hhead
                    | cons e r =>
                        have hde : d = e := by simpa using hhead
                        subst hde
                        rw [noTwin] at h
                        have h1 := (Bool.and_eq_true_iff.mp h).1
                        rw [noTwin, Bool.and_eq_true_iff]
                        exact ⟨h1, hmm ▸ hm⟩
            · exact ih (noTwin_tail h) l (hsp ▸ List.mem_cons_of_mem m hl')

theorem splitOnNl_singleton {l : List Char} (h : '\n' ∉ l) : splitOnNl l = [l] := by
  induction l with
  | nil => rfl
  | cons c rest ih =>
      have hc : (c == '\n') = false := by
        have : c ≠ '\n' := fun hx => h (hx ▸ List.mem_cons_self c rest)
        simp [this]
      rw [splitOnNl, hc]
      simp only [Bool.false_eq_true, if_false]
      rw [ih (fun hm => h (List.mem_cons_of_mem c hm))]

theorem splitOnNl_append {l s : List Char} (h : '\n' ∉ l) :
    splitOnNl (l ++ '\n' :: s) = l :: splitOnNl s := by
  induction l with
  | nil => simp [splitOnNl]
  | cons c rest ih =>
      have hc : (c == '\n') = false := by
        have : c ≠ '\n' := fun hx => h (hx ▸ List.mem_cons_self c rest)
        simp [this]
      rw [List.cons_append, splitOnNl, hc]
      simp only [Bool.false_eq_true, if_false]
      rw [ih (fun hm => h (List.mem_cons_of_mem c hm))]

theorem splitOnNl_joinWith {L : List (List Char)} (h : ∀ l ∈ L, '\n' ∉ l) (hne : L ≠ []) :
    splitOnNl (joinWith ['\n'] L) = L := by
  induction L with
  | nil => exact absurd rfl hne
  | cons l rest ih =>
      cases rest with
      | nil =>
          rw [joinWith]
          exact splitOnNl_singleton (h l (List.mem_cons_self l []))
      | cons m ls =>
          have hjoin : joinWith ['\n'] (l :: m :: ls) = l ++ '\n' :: joinWith ['\n'] (m :: ls) := by
            simp [joinWith]
          rw [hjoin, splitOnNl_append (h l (List.mem_cons_self l (m :: ls))),
            ih (fun x hx => h x (List.mem_cons_of_mem l hx)) (by simp)]

theorem mem_joinWith {c : Char} {sep : List Char} {L : List (List Char)}
    (h : c ∈ joinWith sep L) : c ∈ sep ∨ ∃ l ∈ L, c ∈ l := by
  induction L with
  | nil => exact absurd h (List.not_mem_nil c)
  | cons l rest ih =>
      cases rest with
      | nil => exact Or.inr ⟨l, List.mem_cons_self l [], h⟩
      | cons m ls =>
          have hj : joinWith sep (l :: m :: ls) = l ++ sep ++ joinWith sep (m :: ls) := by
            simp [joinWith]
          rw [hj] at h
          rcases List.mem_append.mp h with h1 | h1
          · rcases List.mem_append.mp h1 with h2 | h2
            · exact Or.inr ⟨l, List.mem_cons_self l (m :: ls), h2⟩
            · exact Or.inl h2
          · rcases ih h1 with h2 | ⟨x, hx, hcx⟩
            · exact Or.inl h2
            · exact Or.inr ⟨x, List.mem_cons_of_mem l hx, hcx⟩

theorem noTwin_joinWith {x sep : Char} (hsep : (sep == x) = false) {L : List (List Char)}
    (h : ∀ l ∈ L, noTwin x l = true) : noTwin x (joinWith [sep] L) = true := by
  induction L with
  | nil => rfl
  | cons l rest ih =>
      cases rest with
      | nil => exact h l (List.mem_cons_self l [])
      | cons m ls =>
          have hjoin : joinWith [sep] (l :: m :: ls) = l ++ sep :: joinWith [sep] (m :: ls) := by
            simp [joinWith]
          rw [hjoin]
          exact noTwin_sep_join hsep (h l (List.mem_cons_self l (m :: ls)))
            (ih (fun y hy => h y (List.mem_cons_of_mem l hy)))

/-! ## Lemmas about the line filter -/

theorem mem_cleanLines {l : List Char} {ls : List (List Char)} (h : l ∈ cleanLines ls) :
    (∃ raw ∈ ls, pyStrip raw = l) ∧ keepLine l = true ∧ pyStrip l = l := by
  obtain ⟨raw, hraw, heq⟩ := List.mem_filterMap.mp h
  simp only at heq
  by_cases hk : keepLine (pyStrip raw) = true
  · rw [if_pos hk] at heq
    cases heq
    exact ⟨⟨raw, hraw, rfl⟩, hk, pyStrip_idem raw⟩
  · rw [if_neg hk] at heq
    cases heq

theorem cleanLines_fixed {L : List (List Char)}
    (h : ∀ l ∈ L, pyStrip l = l ∧ keepLine l = true) : cleanLines L = L := by
  induction L with
  | nil => rfl
  | cons l rest ih =>
      have hl := h l (List.mem_cons_self l rest)
      rw [cleanLines, List.filterMap_cons]
      simp only [hl.1, hl.2, if_true]
      rw [cleanLines] at ih
      rw [ih (fun y hy => h y (List.mem_cons_of_mem l hy))]

theorem keepLine_ne_nil {l : List Char} (h : keepLine l = true) : l ≠ [] := by
  intro hn
  subst hn
  cases h

/-! ## Character absences along the sanitizing pipeline -/

theorem not_mem_dashNormalize_em (l : List Char) : '—' ∉ dashNormalize l :=
  replaceChar_keeps_not_mem (by decide) (replaceChar_not_mem_self l (by decide))

theorem not_mem_dashNormalize_en (l : List Char) : '–' ∉ dashNormalize l :=
  replaceChar_not_mem_self _ (by decide)

theorem not_mem_bulletNormalize_keep {c : Char} {l : List Char} (hc : c ≠ '-') (h : c ∉ l) :
    c ∉ bulletNormalize l :=
  replaceChar_keeps_not_mem hc (replaceChar_keeps_not_mem hc (replaceChar_keeps_not_mem hc h))

theorem not_mem_bulletNormalize_dot (l : List Char) : '•' ∉ bulletNormalize l :=
  replaceChar_keeps_not_mem (by decide)
    (replaceChar_keeps_not_mem (by decide) (replaceChar_not_mem_self l (by decide)))

theorem not_mem_bulletNormalize_circ (l : List Char) : '◦' ∉ bulletNormalize l :=
  replaceChar_keeps_not_mem (by decide) (replaceChar_not_mem_self _ (by decide))

theorem not_mem_bulletNormalize_sq (l : List Char) : '▪' ∉ bulletNormalize l :=
  replaceChar_not_mem_self _ (by decide)

theorem not_mem_cleanContent {c : Char} {s : List Char} (hnl : c ≠ '\n')
    (h4 : c ∉ bulletNormalize (removeTwin '*' (dashNormalize (dropAiIntro s)))) :
    c ∉ cleanContent s := by
  intro hm
  rcases mem_joinWith hm with hsep | ⟨l, hl, hcl⟩
  · exact hnl (List.mem_singleton.mp hsep)
  · obtain ⟨⟨raw, hraw, heq⟩, _, _⟩ := mem_cleanLines hl
    exact h4 (mem_splitOnNl _ raw hraw (mem_pyStrip (heq ▸ hcl)))

theorem cleanContent_no_em (s : List Char) : '—' ∉ cleanContent s :=
  not_mem_cleanContent (by decide)
    (not_mem_bulletNormalize_keep (by decide)
      (fun hm => not_mem_dashNormalize_em _ (mem_removeTwin hm)))

theorem cleanContent_no_en (s : List Char) : '–' ∉ cleanContent s :=
  not_mem_cleanContent (by decide)
    (not_mem_bulletNormalize_keep (by decide)
      (fun hm => not_mem_dashNormalize_en _ (mem_removeTwin hm)))

theorem cleanContent_no_dot (s : List Char) : '•' ∉ cleanContent s :=
  not_mem_cleanContent (by decide) (not_mem_bulletNormalize_dot _)

theorem cleanContent_no_circ (s : List Char) : '◦' ∉ cleanContent s :=
  not_mem_cleanContent (by decide) (not_mem_bulletNormalize_circ _)

theorem cleanContent_no_sq (s : List Char) : '▪' ∉ cleanContent s :=
  not_mem_cleanContent (by decide) (not_mem_bulletNormalize_sq _)

/-! ## Counting lemmas for the dash step -/

theorem count_replaceChar_target {a b : Char} (h : a ≠ b) (l : List Char) :
    List.count b (replaceChar a b l) = List.count b l + List.count a l := by
  induction l with
  | nil => rfl
  | cons c rest ih =>
      by_cases hca : c = a
      · subst hca
        rw [replaceChar, List.map_cons, if_pos rfl]
        rw [replaceChar] at ih
        rw [List.count_cons_self, ih, List.count_cons_of_ne (Ne.symm h),
          List.count_cons_self]
        omega
      · rw [replaceChar, List.map_cons, if_neg hca]
        rw [replaceChar] at ih
        by_cases hcb : c = b
        · subst hcb
          rw [List.count_cons_self, ih, List.count_cons_self,
            List.count_cons_of_ne (fun hx => hca hx.symm)]
          omega
        · rw [List.count_cons_of_ne (fun hx => hcb hx.symm), ih,
            List.count_cons_of_ne (fun hx => hcb hx.symm),
            List.count_cons_of_ne (fun hx => hca hx.symm)]

theorem count_replaceChar_absent {x a b : Char} (hxa : x ≠ a) (hxb : x ≠ b) (l : List Char) :
    List.count x (replaceChar a b l) = List.count x l := by
  induction l with
  | nil => rfl
  | cons c rest ih =>
      by_cases hca : c = a
      · subst hca
        rw [replaceChar, List.map_cons, if_pos rfl]
        rw [replaceChar] at ih
        rw [List.count_cons_of_ne hxb, ih, List.count_cons_of_ne hxa]
      · rw [replaceChar, List.map_cons, if_neg hca]
        rw [replaceChar] at ih
        by_cases hcx : x = c
        · subst hcx
          rw [List.count_cons_self, ih, List.count_cons_self]
        · rw [List.count_cons_of_ne hcx, ih, List.count_cons_of_ne hcx]

/-! ## Claim C4: dash replacement -/

/-- Claim C4, counterexample: the hyphen-count law fails for the full
sanitizer on an input that does contain an em dash — the bullet glyph is
also standardised to a hyphen, so the hyphen count grows by two while
only one dash was replaced. -/
theorem c4_counterexample :
    cleanContent (str "a—b\n• c") = str "a-b\n- c" ∧
    ¬ (List.count '-' (cleanContent (str "a—b\n• c")) =
        List.count '-' (str "a—b\n• c") + List.count '—' (str "a—b\n• c") +
        List.count '–' (str "a—b\n• c")) := by
  constructor <;> decide

/-- Claim C4, amended: the full sanitizer's output never contains em or
en dashes; the hyphen-count law (output hyphens = input hyphens + number
of em/en dashes replaced) holds for the dash-replacement step itself,
for every input — but not for the whole pipeline, where bullet
standardisation and line filtering also change the hyphen count. -/
theorem c4_dash_replacement :
    (∀ s, List.count '—' (cleanContent s) = 0 ∧ List.count '–' (cleanContent s) = 0) ∧
    (∀ l, List.count '-' (dashNormalize l) =
        List.count '-' l + List.count '—' l + List.count '–' l ∧
      List.count '—' (dashNormalize l) = 0 ∧ List.count '–' (dashNormalize l) = 0) := by
  constructor
  · intro s
    exact ⟨List.count_eq_zero.mpr (cleanContent_no_em s),
      List.count_eq_zero.mpr (cleanContent_no_en s)⟩
  · intro l
    refine ⟨?_, List.count_eq_zero.mpr (not_mem_dashNormalize_em l),
      List.count_eq_zero.mpr (not_mem_dashNormalize_en l)⟩
    rw [dashNormalize, count_replaceChar_target (by decide),
      count_replaceChar_target (by decide),
      count_replaceChar_absent (by decide) (by decide)]

/-! ## Claim C10: shape of the sanitized text -/

/-- Claim C10: unless it is empty, the sanitized text has no blank line
and no line with leading or trailing whitespace — every line was
individually trimmed and every empty line dropped. -/
theorem c10_no_blank_lines (s : List Char) :
    cleanContent s = [] ∨
    ∀ l ∈ splitOnNl (cleanContent s), l ≠ [] ∧ pyStrip l = l := by
  cases hL : cleanLines (splitOnNl (bulletNormalize (removeTwin '*' (dashNormalize (dropAiIntro s))))) with
  | nil =>
      left
      rw [cleanContent, hL]
      rfl
  | cons m ms =>
      right
      have hsplit : splitOnNl (cleanContent s) = m :: ms := by
        rw [cleanContent, hL]
        apply splitOnNl_joinWith
        · intro l hl
          obtain ⟨⟨raw, hraw, heq⟩, _, _⟩ := mem_cleanLines (hL ▸ hl)
          intro hnl
          exact splitOnNl_no_nl _ raw hraw (mem_pyStrip (heq ▸ hnl))
        · simp
      intro l hl
      rw [hsplit] at hl
      obtain ⟨_, hk, hs⟩ := mem_cleanLines (hL ▸ hl)
      exact ⟨keepLine_ne_nil hk, hs⟩

/-- Witness for C10 on a concrete sanitized text with an interior blank
line and padded line in the raw input. -/
theorem c10_witness : str "Hi" ≠ [] ∧ pyStrip (str "Hi") = str "Hi" := by
  have h := (c10_no_blank_lines (str "Hi\n\n x ")).resolve_left (by decide)
  exact h (str "Hi") (by decide)

/-! ## Claim C3: idempotence of the sanitizer -/

/-- Claim C3, counterexample: sanitizing is not idempotent — stripping
the intro "Certainly!" exposes "This policy", which is itself in the
intro list, so a second pass strips again. -/
theorem c3_counterexample :
    cleanContent (cleanContent (str "Certainly! This policy covers X")) ≠
      cleanContent (str "Certainly! This policy covers X") := by
  decide

/-- Claim C3, amended: the sanitizer is idempotent exactly on the inputs
whose sanitized form does not begin (after trimming) with one of the
enumerated conversational intros; on such inputs a second application
changes nothing, while the counterexample shows a second intro can be
exposed otherwise. -/
theorem c3_idem_on_stable (s : List Char)
    (h : ∀ p ∈ aiIntros, p.isPrefixOf (pyStrip (cleanContent s)) = false) :
    cleanContent (cleanContent s) = cleanContent s := by
  have ht : cleanContent s =
      joinWith ['\n']
        (cleanLines (splitOnNl (bulletNormalize (removeTwin '*' (dashNormalize (dropAiIntro s)))))) :=
    rfl
  -- facts about every line of the sanitized output
  have hmemL : ∀ l ∈ cleanLines (splitOnNl (bulletNormalize (removeTwin '*' (dashNormalize (dropAiIntro s))))),
      pyStrip l = l ∧ keepLine l = true ∧ '\n' ∉ l := by
    intro l hl
    obtain ⟨⟨raw, hraw, heq⟩, hk, hs⟩ := mem_cleanLines hl
    refine ⟨hs, hk, fun hnl => ?_⟩
    exact splitOnNl_no_nl _ raw hraw (mem_pyStrip (heq ▸ hnl))
  -- step 1 of the second pass: no intro matches, content untouched
  have h1 : dropAiIntro (cleanContent s) = cleanContent s := by
    rw [dropAiIntro]
    have hf : aiIntros.find? (fun p => p.isPrefixOf (pyStrip (cleanContent s))) = none := by
      apply List.find?_eq_none.mpr
      intro p hp
      rw [h p hp]
      exact Bool.false_ne_true
    rw [hf]
  -- step 2: no dash characters remain
  have h2 : dashNormalize (cleanContent s) = cleanContent s := by
    rw [dashNormalize, replaceChar_id (cleanContent_no_em s),
      replaceChar_id (cleanContent_no_en s)]
  -- step 3: no adjacent star pair remains
  have htwin : noTwin '*' (cleanContent s) = true := by
    rw [ht]
    apply noTwin_joinWith (by decide)
    intro l hl
    obtain ⟨⟨raw, hraw, heq⟩, _, _⟩ := mem_cleanLines hl
    have hc4 : noTwin '*' (bulletNormalize (removeTwin '*' (dashNormalize (dropAiIntro s)))) = true := by
      apply noTwin_replaceChar (by decide) (by decide)
      apply noTwin_replaceChar (by decide) (by decide)
      apply noTwin_replaceChar (by decide) (by decide)
      exact noTwin_removeTwin '*' _
    have hraw' : noTwin '*' raw = true := noTwin_splitOnNl _ hc4 raw hraw
    exact heq ▸ noTwin_pyStrip hraw'
  have h3 : removeTwin '*' (cleanContent s) = cleanContent s := removeTwin_id htwin
  -- step 4: no bullet glyphs remain
  have h4 : bulletNormalize (cleanContent s) = cleanContent s := by
    rw [bulletNormalize, replaceChar_id (cleanContent_no_dot s),
      replaceChar_id (cleanContent_no_circ s), replaceChar_id (cleanContent_no_sq s)]
  -- step 5: splitting, filtering and re-joining reproduce the same text
  have h5 : joinWith ['\n'] (cleanLines (splitOnNl (cleanContent s))) = cleanContent s := by
    cases hL : cleanLines (splitOnNl (bulletNormalize (removeTwin '*' (dashNormalize (dropAiIntro s))))) with
    | nil =>
        rw [ht, hL]
        decide
    | cons m ms =>
        have hsplit : splitOnNl (cleanContent s) = m :: ms := by
          rw [ht, hL]
          apply splitOnNl_joinWith
          · intro l hl
            exact (hmemL l (hL ▸ hl)).2.2
          · simp
        rw [hsplit]
        have hfix : cleanLines (m :: ms) = m :: ms := by
          apply cleanLines_fixed
          intro l hl
          have := hmemL l (hL ▸ hl)
          exact ⟨this.1, this.2.1⟩
        rw [hfix, ← hL, ← ht]
  calc cleanContent (cleanContent s)
      = joinWith ['\n']
          (cleanLines (splitOnNl (bulletNormalize (removeTwin '*'
            (dashNormalize (dropAiIntro (cleanContent s))))))) := rfl
    _ = joinWith ['\n'] (cleanLines (splitOnNl (cleanContent s))) := by
          rw [h1, h2, h3, h4]
    _ = cleanContent s := h5

/-- Witness for C3 at an input whose sanitized form starts with no
enumerated intro. -/
theorem c3_witness :
    (∀ p ∈ aiIntros, p.isPrefixOf (pyStrip (cleanContent (str "Hello world"))) = false) ∧
    cleanContent (cleanContent (str "Hello world")) = cleanContent (str "Hello world") :=
  ⟨by decide, c3_idem_on_stable (str "Hello world") (by decide)⟩

end PolicyGen
